import Mathlib

/-!
Verification of the vaihde worktree tool (src/vaihde/config.py, ops.py,
cli.py) via a shallow embedding.  Filesystem and subprocess effects are
modelled by environment records of boolean/functional oracles; the code's
control flow is translated function by function from the Python source.
-/

namespace Vaihde

/-! ## Path mangling (config.py, mangle_path)

`mangle_path` is `str(path.resolve()).lstrip("/").replace("/", "__") + ".toml"`.
Paths are modelled as lists of characters (the `str` of an already resolved
path); `lstripSlash` models `lstrip("/")` and `replSlash` models
`replace("/", "__")`. -/

def lstripSlash : List Char → List Char
  | [] => []
  | c :: rest => if c = '/' then lstripSlash rest else c :: rest

def replSlash : List Char → List Char
  | [] => []
  | c :: rest => if c = '/' then '_' :: '_' :: replSlash rest else c :: replSlash rest

def tomlSuffix : List Char := ['.', 't', 'o', 'm', 'l']

def mangle_path (p : List Char) : List Char :=
  replSlash (lstripSlash p) ++ tomlSuffix

/-- Decoder for `replSlash`: turns each double underscore back into a slash.
Used only to establish injectivity of `replSlash` on underscore-free input. -/
def unrepl : List Char → List Char
  | [] => []
  | [c] => [c]
  | c :: d :: rest =>
    if c = '_' then
      if d = '_' then '/' :: unrepl rest
      else c :: unrepl (d :: rest)
    else c :: unrepl (d :: rest)

lemma replSlash_ne_nil (c : Char) (s : List Char) : replSlash (c :: s) ≠ [] := by
  simp only [replSlash]
  split <;> simp

lemma unrepl_replSlash (s : List Char) (h : ∀ c ∈ s, c ≠ '_') :
    unrepl (replSlash s) = s := by
  induction s with
  | nil => simp [replSlash, unrepl]
  | cons c rest ih =>
    have hc : c ≠ '_' := h c (List.mem_cons_self c rest)
    have hrest : ∀ x ∈ rest, x ≠ '_' := fun x hx => h x (List.mem_cons_of_mem c hx)
    by_cases hsl : c = '/'
    · subst hsl
      simp only [replSlash, if_pos rfl]
      simp [unrepl, ih hrest]
    · simp only [replSlash, if_neg hsl]
      cases hr : replSlash rest with
      | nil =>
        cases rest with
        | nil => simp [unrepl]
        | cons d t => exact absurd hr (replSlash_ne_nil d t)
      | cons d t =>
        simp only [unrepl, if_neg hc]
        rw [← hr, ih hrest]

lemma lstripSlash_of_head_ne (p : List Char) (h : p.head? ≠ some '/') :
    lstripSlash p = p := by
  cases p with
  | nil => rfl
  | cons c rest =>
    have : c ≠ '/' := by
      intro hc
      exact h (by simp [hc])
    simp [lstripSlash, this]

lemma slash_notMem_replSlash (s : List Char) : '/' ∉ replSlash s := by
  induction s with
  | nil => simp [replSlash]
  | cons c rest ih =>
    simp only [replSlash]
    split
    · intro hmem
      rcases List.mem_cons.mp hmem with h1 | hmem
      · exact absurd h1.symm (by decide)
      rcases List.mem_cons.mp hmem with h2 | hmem
      · exact absurd h2.symm (by decide)
      · exact ih hmem
    · intro hmem
      rcases List.mem_cons.mp hmem with h1 | hmem
      · rename_i hne
        exact hne h1.symm
      · exact ih hmem

/-- C9: for every input path, the filename produced by `mangle_path` contains
no path separator character and ends with the fixed suffix `.toml`. -/
theorem mangle_path_no_sep_and_suffix (p : List Char) :
    '/' ∉ mangle_path p ∧ tomlSuffix <:+ mangle_path p := by
  constructor
  · intro hmem
    rcases List.mem_append.mp hmem with h | h
    · exact slash_notMem_replSlash _ h
    · revert h
      decide
  · exact ⟨replSlash (lstripSlash p), rfl⟩

/-- C1 counterexample: `mangle_path` is not injective on absolute paths.
The distinct absolute resolved paths `/a/b__c` and `/a/b/c` (they differ in
a path segment) are mangled to the same filename `a__b__c.toml`. -/
theorem mangle_path_collision :
    mangle_path ("/a/b__c".data) = mangle_path ("/a/b/c".data) ∧
    ("/a/b__c".data) ≠ ("/a/b/c".data) ∧
    ("/a/b__c".data).head? = some '/' ∧ ("/a/b/c".data).head? = some '/' := by
  refine ⟨by decide, by decide, by decide, by decide⟩

/-- C1 (amended): `mangle_path` is injective on resolved absolute paths
(single leading separator) that contain no underscore character. -/
theorem mangle_path_injective_no_underscore (p q : List Char)
    (hp : p.head? = some '/') (hq : q.head? = some '/')
    (hp2 : p.tail.head? ≠ some '/') (hq2 : q.tail.head? ≠ some '/')
    (hpu : '_' ∉ p) (hqu : '_' ∉ q)
    (heq : mangle_path p = mangle_path q) : p = q := by
  obtain ⟨p1, rfl⟩ : ∃ p1, p = '/' :: p1 := by
    cases p with
    | nil => simp at hp
    | cons c rest => simp at hp; simp [hp]
  obtain ⟨q1, rfl⟩ : ∃ q1, q = '/' :: q1 := by
    cases q with
    | nil => simp at hq
    | cons c rest => simp at hq; simp [hq]
  simp only [List.tail_cons] at hp2 hq2
  have hp1 : lstripSlash ('/' :: p1) = p1 := by
    simp only [lstripSlash, if_pos rfl]
    exact lstripSlash_of_head_ne p1 hp2
  have hq1 : lstripSlash ('/' :: q1) = q1 := by
    simp only [lstripSlash, if_pos rfl]
    exact lstripSlash_of_head_ne q1 hq2
  unfold mangle_path at heq
  rw [hp1, hq1] at heq
  have hrepl : replSlash p1 = replSlash q1 :=
    (List.append_left_inj _).mp heq
  have hpu1 : ∀ c ∈ p1, c ≠ '_' := fun c hc hceq =>
    hpu (List.mem_cons_of_mem _ (hceq ▸ hc))
  have hqu1 : ∀ c ∈ q1, c ≠ '_' := fun c hc hceq =>
    hqu (List.mem_cons_of_mem _ (hceq ▸ hc))
  have : p1 = q1 := by
    rw [← unrepl_replSlash p1 hpu1, ← unrepl_replSlash q1 hqu1, hrepl]
  rw [this]

/-- C1 witness: the amended injectivity theorem applied at the concrete
distinct underscore-free absolute paths `/a/b` (twice). -/
theorem mangle_path_injective_witness :
    ("/a/b".data) = ("/a/b".data) :=
  mangle_path_injective_no_underscore ("/a/b".data) ("/a/b".data)
    (by decide) (by decide) (by decide) (by decide) (by decide) (by decide) rfl

/-! ## Config data model (config.py)

`VaihdeError` covers the tool's error taxonomy; in the Python source all of
these are a single exception class distinguished by message, and the CLI's
top-level handler maps any of them to exit code 1. -/

inductive VaihdeErr where
  | notAGitRepository
  | invalidConfig (msg : String)
  | worktreeExists
  | branchExists
  | worktreeCreationFailed
  | listFailed
  deriving DecidableEq

structure PostCommand where
  run : String
  shell : Bool
  deriving DecidableEq

structure VaihdeConfig where
  worktree_root : String
  copy_files : List String
  post_commands : List PostCommand
  deriving DecidableEq

/-- One entry of the `post_commands` TOML array: `run` and `shell` keys,
each possibly absent. -/
structure TomlCommand where
  run : Option String
  shell : Option Bool
  deriving DecidableEq

/-- The parsed TOML document as `load_config` consumes it:
`worktree_root` (possibly absent), the chain
`data.get("copy", \x7b\x7d).get("files", [])` before its default is applied,
and the `post_commands` array (possibly absent). -/
structure TomlData where
  worktree_root : Option String
  copyFiles : Option (List String)
  post_commands : Option (List TomlCommand)
  deriving DecidableEq

/-- The `for cmd_data in data.get("post_commands", [])` loop of
`load_config`: raises on the first entry missing a `run` key, otherwise
builds `PostCommand(run, shell=cmd_data.get("shell", False))` in order. -/
def parsePostCommands (path : String) : List TomlCommand → Except VaihdeErr (List PostCommand)
  | [] => .ok []
  | c :: rest =>
    match c.run with
    | none => .error (.invalidConfig ("Post command missing run field in " ++ path))
    | some r =>
      match parsePostCommands path rest with
      | .error e => .error e
      | .ok others => .ok (⟨r, c.shell.getD false⟩ :: others)

/-- Translation of `load_config`.  `resolve` stands for
`Path(...).expanduser().resolve()`, an environment-dependent path
normalisation the loader applies to `worktree_root`. -/
def load_config (resolve : String → String) (path : String) (data : TomlData) :
    Except VaihdeErr VaihdeConfig :=
  match data.worktree_root with
  | none => .error (.invalidConfig ("Missing required worktree_root in " ++ path))
  | some wr =>
    match parsePostCommands path (data.post_commands.getD []) with
    | .error e => .error e
    | .ok pcs =>
      .ok { worktree_root := resolve wr
            copy_files := data.copyFiles.getD []
            post_commands := pcs }

lemma parsePostCommands_error_iff (path : String) (l : List TomlCommand) :
    (∃ e, parsePostCommands path l = .error e) ↔ ∃ c ∈ l, c.run = none := by
  induction l with
  | nil => simp [parsePostCommands]
  | cons c rest ih =>
    cases hr : c.run with
    | none => simp [parsePostCommands, hr]
    | some r =>
      cases hrec : parsePostCommands path rest with
      | error e =>
        have : ∃ e, parsePostCommands path rest = .error e := ⟨e, hrec⟩
        simp only [parsePostCommands, hr, hrec]
        constructor
        · intro _
          obtain ⟨d, hd, hdr⟩ := ih.mp this
          exact ⟨d, List.mem_cons_of_mem _ hd, hdr⟩
        · intro _
          exact ⟨e, rfl⟩
      | ok others =>
        have hne : ¬ ∃ e, parsePostCommands path rest = .error e := by
          simp [hrec]
        simp only [parsePostCommands, hr, hrec]
        constructor
        · intro ⟨e, he⟩
          exact absurd he (by simp)
        · intro ⟨d, hd, hdr⟩
          rcases List.mem_cons.mp hd with rfl | hd
          · exact absurd hr (by simp [hdr])
          · exact absurd (ih.mpr ⟨d, hd, hdr⟩) hne

lemma parsePostCommands_ok (path : String) (l : List TomlCommand)
    (out : List PostCommand) (h : parsePostCommands path l = .ok out) :
    out = l.map fun c => ⟨c.run.getD "", c.shell.getD false⟩ := by
  induction l generalizing out with
  | nil => simp [parsePostCommands] at h; simp [← h]
  | cons c rest ih =>
    cases hr : c.run with
    | none => simp [parsePostCommands, hr] at h
    | some r =>
      cases hrec : parsePostCommands path rest with
      | error e => simp [parsePostCommands, hr, hrec] at h
      | ok others =>
        simp only [parsePostCommands, hr, hrec] at h
        cases h
        simp [ih others hrec, hr]

/-- C5: `load_config` fails with `InvalidConfig` exactly when `worktree_root`
is absent or some `post_commands` entry lacks a `run` key; on success the
returned config has the resolved `worktree_root`, `copy_files` defaulting to
the empty list, and each post command's `shell` defaulting to `false`. -/
theorem load_config_spec (resolve : String → String) (path : String) (data : TomlData) :
    ((∃ e, load_config resolve path data = .error e) ↔
      (data.worktree_root = none ∨ ∃ c ∈ data.post_commands.getD [], c.run = none))
    ∧ (∀ cfg w, load_config resolve path data = .ok cfg → data.worktree_root = some w →
        cfg.worktree_root = resolve w ∧
        cfg.copy_files = data.copyFiles.getD [] ∧
        cfg.post_commands =
          (data.post_commands.getD []).map fun c => ⟨c.run.getD "", c.shell.getD false⟩) := by
  constructor
  · cases hw : data.worktree_root with
    | none => simp [load_config, hw]
    | some wr =>
      cases hp : parsePostCommands path (data.post_commands.getD []) with
      | error e =>
        simp only [load_config, hw, hp]
        constructor
        · intro _
          exact Or.inr ((parsePostCommands_error_iff path _).mp ⟨e, hp⟩)
        · intro _
          exact ⟨e, rfl⟩
      | ok pcs =>
        simp only [load_config, hw, hp]
        constructor
        · intro ⟨e, he⟩
          exact absurd he (by simp)
        · intro h
          rcases h with h | h
          · simp at h
          · obtain ⟨e, he⟩ := (parsePostCommands_error_iff path _).mpr h
            exact absurd he (by simp [hp])
  · intro cfg w hok hw
    cases hp : parsePostCommands path (data.post_commands.getD []) with
    | error e => simp [load_config, hw, hp] at hok
    | ok pcs =>
      simp only [load_config, hw, hp] at hok
      cases hok
      exact ⟨rfl, rfl, parsePostCommands_ok path _ pcs hp⟩

/-- C5 witness: both directions of the specification at concrete data.
A document with no `worktree_root` fails; the minimal successful document
with one `shell`-less post command loads with the defaults applied. -/
theorem load_config_spec_witness :
    (∃ e, load_config id "p" ⟨none, none, none⟩ = .error e) ∧
    (VaihdeConfig.mk "/w" [] [⟨"uv sync", false⟩]).worktree_root = id "/w" ∧
    (VaihdeConfig.mk "/w" [] [⟨"uv sync", false⟩]).copy_files =
      (TomlData.mk (some "/w") none (some [⟨some "uv sync", none⟩])).copyFiles.getD [] ∧
    (VaihdeConfig.mk "/w" [] [⟨"uv sync", false⟩]).post_commands =
      ((TomlData.mk (some "/w") none (some [⟨some "uv sync", none⟩])).post_commands.getD []).map
        (fun c => ⟨c.run.getD "", c.shell.getD false⟩) := by
  constructor
  · exact (load_config_spec id "p" ⟨none, none, none⟩).1.mpr (Or.inl rfl)
  · exact (load_config_spec id "p" ⟨some "/w", none, some [⟨some "uv sync", none⟩]⟩).2
      (VaihdeConfig.mk "/w" [] [⟨"uv sync", false⟩]) "/w" rfl rfl

/-! ## Git and filesystem operations (ops.py)

External effects are modelled by an environment of oracles: `pathExists`
is `Path.exists` on the filesystem at call time, `branchExists` the result
of `git show-ref --verify --quiet`, `gitAddOk` whether `git worktree add`
exits zero, `copyOk` whether the `mkdir`+`copy2` body for a file succeeds
without `OSError`, and `exitCode` the exit status of a post command.
Every externally visible step is recorded in a trace of `Action`s. -/

inductive Action where
  | checkDir (path : String)
  | checkBranch (branch : String)
  | mkdirParents (path : String)
  | gitWorktreeAdd (path : String) (branch : String)
  | copied (file : String)
  | skipMissing (file : String)
  | warnCopyFailed (file : String)
  | runCmd (run : String) (shell : Bool)
  | warnCmdFailed (run : String) (code : Int)
  deriving DecidableEq

structure GitEnv where
  pathExists : String → Bool
  branchExists : String → Bool
  gitAddOk : Bool
  copyOk : String → Bool
  exitCode : String → Int

/-- Result of `create_worktree`: the returned value or raised error, the
filesystem as left behind (`Path.exists` afterwards), and the trace. -/
structure CwResult where
  res : Except VaihdeErr String
  fs : String → Bool
  trace : List Action

/-- Translation of `create_worktree`: existence check on
`target / name`, then branch check, then `target.mkdir(parents=True,
exist_ok=True)`, then `git worktree add -b name worktree_path`.  No step
undoes the `mkdir` when the git invocation fails. -/
def create_worktree (env : GitEnv) (repoRoot target name : String) : CwResult :=
  let worktree_path := target ++ "/" ++ name
  if env.pathExists worktree_path then
    { res := .error .worktreeExists
      fs := env.pathExists
      trace := [.checkDir worktree_path] }
  else if env.branchExists name then
    { res := .error .branchExists
      fs := env.pathExists
      trace := [.checkDir worktree_path, .checkBranch name] }
  else
    let fsAfterMkdir : String → Bool := fun p => p == target || env.pathExists p
    if env.gitAddOk then
      { res := .ok worktree_path
        fs := fun p => p == worktree_path || fsAfterMkdir p
        trace := [.checkDir worktree_path, .checkBranch name,
                  .mkdirParents target, .gitWorktreeAdd worktree_path name] }
    else
      { res := .error .worktreeCreationFailed
        fs := fsAfterMkdir
        trace := [.checkDir worktree_path, .checkBranch name,
                  .mkdirParents target, .gitWorktreeAdd worktree_path name] }

/-- C3: `create_worktree` fails with `WorktreeExists` whenever
`target/name` exists on disk, fails with `BranchExists` whenever the branch
exists and the directory does not, and the directory check comes first in
the trace, with the branch check (when reached) immediately after it. -/
theorem create_worktree_validation (env : GitEnv) (r t n : String) :
    (env.pathExists (t ++ "/" ++ n) = true →
      (create_worktree env r t n).res = .error .worktreeExists)
    ∧ (env.pathExists (t ++ "/" ++ n) = false → env.branchExists n = true →
      (create_worktree env r t n).res = .error .branchExists)
    ∧ (create_worktree env r t n).trace.head? = some (.checkDir (t ++ "/" ++ n))
    ∧ (Action.checkBranch n ∈ (create_worktree env r t n).trace →
      (create_worktree env r t n).trace.tail.head? = some (.checkBranch n)) := by
  by_cases hd : env.pathExists (t ++ "/" ++ n) = true
  · simp [create_worktree, hd]
  · by_cases hb : env.branchExists n = true
    · simp [create_worktree, hd, hb]
    · by_cases hg : env.gitAddOk = true
      · simp [create_worktree, hd, hb, hg]
      · simp [create_worktree, hd, hb, hg]

/-- C3 witness: concrete environments exhibiting both failures and the
check order. -/
theorem create_worktree_validation_witness :
    (create_worktree ⟨fun _ => true, fun _ => false, true, fun _ => true, fun _ => 0⟩
      "/repo" "/w" "feat").res = .error .worktreeExists
    ∧ (create_worktree ⟨fun _ => false, fun _ => true, true, fun _ => true, fun _ => 0⟩
      "/repo" "/w" "feat").res = .error .branchExists
    ∧ (create_worktree ⟨fun _ => false, fun _ => true, true, fun _ => true, fun _ => 0⟩
      "/repo" "/w" "feat").trace.head? = some (.checkDir "/w/feat") := by
  refine ⟨(create_worktree_validation _ "/repo" "/w" "feat").1 rfl,
    ((create_worktree_validation _ "/repo" "/w" "feat").2.1 rfl rfl),
    ?_⟩
  have h := (create_worktree_validation
    (⟨fun _ => false, fun _ => true, true, fun _ => true, fun _ => 0⟩ : GitEnv)
    "/repo" "/w" "feat").2.2.1
  simpa using h

/-- C10: when `create_worktree` fails with `WorktreeCreationFailed`, the
target directory has already been created (it exists in the final
filesystem whatever `pathExists target` was before), the `mkdir` precedes
the git invocation in the trace, and no cleanup action follows. -/
theorem create_worktree_no_cleanup (env : GitEnv) (r t n : String)
    (h : (create_worktree env r t n).res = .error .worktreeCreationFailed) :
    (create_worktree env r t n).fs t = true
    ∧ (create_worktree env r t n).trace =
      [.checkDir (t ++ "/" ++ n), .checkBranch n,
       .mkdirParents t, .gitWorktreeAdd (t ++ "/" ++ n) n] := by
  by_cases hd : env.pathExists (t ++ "/" ++ n) = true
  · simp [create_worktree, hd] at h
  · by_cases hb : env.branchExists n = true
    · simp [create_worktree, hd, hb] at h
    · by_cases hg : env.gitAddOk = true
      · simp [create_worktree, hd, hb, hg] at h
      · simp [create_worktree, hd, hb, hg]

/-- C10 witness: a fresh filesystem (nothing exists) where the git
invocation fails; afterwards the target directory exists. -/
theorem create_worktree_no_cleanup_witness :
    ((create_worktree ⟨fun _ => false, fun _ => false, false, fun _ => true, fun _ => 0⟩
        "/repo" "/w" "feat").fs "/w" = true)
    ∧ ((⟨fun _ => false, fun _ => false, false, fun _ => true, fun _ => 0⟩ : GitEnv).pathExists "/w"
        = false) := by
  refine ⟨(create_worktree_no_cleanup
    (⟨fun _ => false, fun _ => false, false, fun _ => true, fun _ => 0⟩ : GitEnv)
    "/repo" "/w" "feat" rfl).1, rfl⟩

/-- Translation of `copy_files`: one action per entry.  The `try`/`except
OSError` of the source makes the body total: a missing source is skipped
with an info note, a failing `mkdir`/`copy2` is logged as a warning, and
the loop continues either way. -/
def copy_files (env : GitEnv) (srcDir dstDir : String) : List String → List Action
  | [] => []
  | f :: rest =>
    (if env.pathExists (srcDir ++ "/" ++ f) = false then Action.skipMissing f
     else if env.copyOk f then Action.copied f
     else Action.warnCopyFailed f) :: copy_files env srcDir dstDir rest

lemma copy_files_append (env : GitEnv) (sd dd : String) (a b : List String) :
    copy_files env sd dd (a ++ b) = copy_files env sd dd a ++ copy_files env sd dd b := by
  induction a with
  | nil => simp [copy_files]
  | cons f rest ih => simp [copy_files, ih]

/-- C7: the copy step never aborts: however entry `f` fares (missing source
gives a skip note, a copy failure gives a warning), it contributes exactly
one action and every later entry is still processed, identically to a run
in which `f` was absent. -/
theorem copy_files_never_aborts (env : GitEnv) (sd dd : String)
    (pre : List String) (f : String) (post : List String) :
    copy_files env sd dd (pre ++ f :: post) =
      copy_files env sd dd pre ++
        (if env.pathExists (sd ++ "/" ++ f) = false then Action.skipMissing f
         else if env.copyOk f then Action.copied f
         else Action.warnCopyFailed f) :: copy_files env sd dd post
    ∧ (copy_files env sd dd (pre ++ f :: post)).length = pre.length + 1 + post.length := by
  have hlen : ∀ l : List String, (copy_files env sd dd l).length = l.length := by
    intro l
    induction l with
    | nil => rfl
    | cons g rest ih => simp [copy_files, ih]
  constructor
  · rw [copy_files_append]
    rfl
  · simp [hlen]
    omega

/-- Translation of `run_commands`: each command runs in order; a non-zero
exit code only adds a warning to the log and the loop continues. -/
def run_commands (env : GitEnv) : List PostCommand → List Action
  | [] => []
  | c :: rest =>
    Action.runCmd c.run c.shell ::
      ((if env.exitCode c.run ≠ 0 then [Action.warnCmdFailed c.run (env.exitCode c.run)] else [])
        ++ run_commands env rest)

/-- The invocation actions of a trace (which commands were actually run). -/
def isRunAct : Action → Bool
  | .runCmd _ _ => true
  | _ => false

lemma run_commands_filter (env : GitEnv) (cmds : List PostCommand) :
    (run_commands env cmds).filter isRunAct =
      cmds.map fun c => Action.runCmd c.run c.shell := by
  induction cmds with
  | nil => rfl
  | cons c rest ih =>
    have hz : List.filter isRunAct
        (if env.exitCode c.run ≠ 0 then [Action.warnCmdFailed c.run (env.exitCode c.run)]
         else []) = [] := by
      split <;> simp [isRunAct]
    simp [run_commands, List.filter_cons, List.filter_append, hz, isRunAct, ih]

/-! ## Config discovery and the new command (config.py find_config, cli.py cmd_new)

`CliEnv` extends the operation environment with the data `find_config` and
`cmd_new` consume: the resolved git root (`none` when `git rev-parse`
fails and `get_git_root` raises `NotAGitRepository` — `find_config`
swallows that error, `run` maps it to exit code 1), the user's home
directory, the parsed content of the discovered config file, and the
path normalisation applied to `worktree_root`. -/

def mangle_path_str (s : String) : String :=
  String.mk (mangle_path s.data)

def get_global_config_path (home gitRoot : String) : String :=
  home ++ "/.config/vaihde/" ++ mangle_path_str gitRoot

def get_local_config_path (gitRoot : String) : String :=
  gitRoot ++ "/vaihde.toml"

structure CliEnv extends GitEnv where
  home : String
  gitRoot : Option String
  configData : TomlData
  resolve : String → String

/-- Translation of `find_config`: `get_git_root` failure is absorbed into
`none`; otherwise the global config path is checked first and wins, then
the local one. -/
def find_config (env : CliEnv) : Option String :=
  match env.gitRoot with
  | none => none
  | some root =>
    let globalConfig := get_global_config_path env.home root
    if env.pathExists globalConfig then some globalConfig
    else
      let localConfig := get_local_config_path root
      if env.pathExists localConfig then some localConfig
      else none

/-- Translation of `cmd_new` together with the `VaihdeError` handler of
`run`, which turns any raised error into exit code 1.  The second
component is the trace of externally visible actions performed. -/
def cmd_new (env : CliEnv) (name : String) : Int × List Action :=
  match env.gitRoot with
  | none => (1, [])
  | some gitRoot =>
    match find_config env with
    | none => (1, [])
    | some configPath =>
      match load_config env.resolve configPath env.configData with
      | .error _ => (1, [])
      | .ok config =>
        let cw := create_worktree env.toGitEnv gitRoot config.worktree_root name
        match cw.res with
        | .error _ => (1, cw.trace)
        | .ok worktree_path =>
          let copyActs :=
            if config.copy_files.isEmpty then []
            else copy_files env.toGitEnv gitRoot worktree_path config.copy_files
          let cmdActs :=
            if config.post_commands.isEmpty then []
            else run_commands env.toGitEnv config.post_commands
          (0, cw.trace ++ copyActs ++ cmdActs)

/-- C2: when both the global and the local config file exist for the
repository root, `find_config` returns the global config path. -/
theorem find_config_global_precedence (env : CliEnv) (root : String)
    (hroot : env.gitRoot = some root)
    (hg : env.pathExists (get_global_config_path env.home root) = true)
    (hl : env.pathExists (get_local_config_path root) = true) :
    find_config env = some (get_global_config_path env.home root) := by
  simp [find_config, hroot, hg]

def envBothConfigs : CliEnv :=
  { pathExists := fun _ => true
    branchExists := fun _ => false
    gitAddOk := true
    copyOk := fun _ => true
    exitCode := fun _ => 0
    home := "/home/akx"
    gitRoot := some "/repo"
    configData := ⟨some "/w", none, none⟩
    resolve := id }

/-- C2 witness: a filesystem where every path exists (so both configs do);
discovery returns the global path. -/
theorem find_config_global_precedence_witness :
    find_config envBothConfigs = some (get_global_config_path "/home/akx" "/repo") ∧
    envBothConfigs.pathExists (get_local_config_path "/repo") = true :=
  ⟨find_config_global_precedence envBothConfigs "/repo" rfl rfl rfl, rfl⟩

/-- C8: when git-root resolution fails (the start directory is not inside
a repository), `find_config` returns `none` instead of propagating the
error. -/
theorem find_config_not_a_repo (env : CliEnv)
    (h : env.gitRoot = none) : find_config env = none := by
  simp [find_config, h]

def envNoRepo : CliEnv :=
  { pathExists := fun _ => true
    branchExists := fun _ => false
    gitAddOk := true
    copyOk := fun _ => true
    exitCode := fun _ => 0
    home := "/home/akx"
    gitRoot := none
    configData := ⟨some "/w", none, none⟩
    resolve := id }

/-- C8 witness: outside a repository, even with every file present,
discovery reports no config. -/
theorem find_config_not_a_repo_witness :
    find_config envNoRepo = none :=
  find_config_not_a_repo envNoRepo rfl

/-- C6: when config discovery finds no config file, `new` exits with code 1
and performs no action at all, in particular no worktree creation. -/
theorem cmd_new_no_config (env : CliEnv) (name : String)
    (h : find_config env = none) : cmd_new env name = (1, []) := by
  cases hroot : env.gitRoot with
  | none => simp [cmd_new, hroot]
  | some root => simp [cmd_new, hroot, h]

def envNoConfig : CliEnv :=
  { pathExists := fun _ => false
    branchExists := fun _ => false
    gitAddOk := true
    copyOk := fun _ => true
    exitCode := fun _ => 0
    home := "/home/akx"
    gitRoot := some "/repo"
    configData := ⟨some "/w", none, none⟩
    resolve := id }

/-- C6 witness: inside a repository with no config file anywhere, `new`
returns 1 with an empty action trace. -/
theorem cmd_new_no_config_witness :
    find_config envNoConfig = none ∧ cmd_new envNoConfig "feature" = (1, []) :=
  ⟨rfl, cmd_new_no_config envNoConfig "feature" rfl⟩

lemma copy_files_filter_runAct (env : GitEnv) (sd dd : String) (files : List String) :
    List.filter isRunAct (copy_files env sd dd files) = [] := by
  induction files with
  | nil => rfl
  | cons f rest ih =>
    simp only [copy_files, List.filter_cons]
    have hact : isRunAct
        (if env.pathExists (sd ++ "/" ++ f) = false then Action.skipMissing f
         else if env.copyOk f then Action.copied f
         else Action.warnCopyFailed f) = false := by
      split
      · rfl
      · split <;> rfl
    simp [hact, ih]

/-- C4: on the success path of `new`, every declared post command is
executed, in declared order, whatever the exit codes of the individual
commands are (`env.exitCode` is unconstrained), and the overall exit code
is 0. -/
theorem cmd_new_runs_all_post_commands (env : CliEnv) (name root cfgPath : String)
    (cfg : VaihdeConfig)
    (hroot : env.gitRoot = some root)
    (hfind : find_config env = some cfgPath)
    (hload : load_config env.resolve cfgPath env.configData = .ok cfg)
    (hd : env.pathExists (cfg.worktree_root ++ "/" ++ name) = false)
    (hb : env.branchExists name = false)
    (hg : env.gitAddOk = true) :
    (cmd_new env name).1 = 0 ∧
    (cmd_new env name).2.filter isRunAct =
      cfg.post_commands.map fun c => Action.runCmd c.run c.shell := by
  have hmain : cmd_new env name =
      (0, [Action.checkDir (cfg.worktree_root ++ "/" ++ name), Action.checkBranch name,
           Action.mkdirParents cfg.worktree_root,
           Action.gitWorktreeAdd (cfg.worktree_root ++ "/" ++ name) name] ++
        (if cfg.copy_files.isEmpty then []
         else copy_files env.toGitEnv root (cfg.worktree_root ++ "/" ++ name) cfg.copy_files) ++
        (if cfg.post_commands.isEmpty then []
         else run_commands env.toGitEnv cfg.post_commands)) := by
    simp [cmd_new, hroot, hfind, hload, create_worktree, hd, hb, hg]
  have h1 : (cmd_new env name).1 = 0 := by rw [hmain]
  have h2 : (cmd_new env name).2 =
      [Action.checkDir (cfg.worktree_root ++ "/" ++ name), Action.checkBranch name,
       Action.mkdirParents cfg.worktree_root,
       Action.gitWorktreeAdd (cfg.worktree_root ++ "/" ++ name) name] ++
        (if cfg.copy_files.isEmpty then []
         else copy_files env.toGitEnv root (cfg.worktree_root ++ "/" ++ name) cfg.copy_files) ++
        (if cfg.post_commands.isEmpty then []
         else run_commands env.toGitEnv cfg.post_commands) := by rw [hmain]
  refine ⟨h1, ?_⟩
  have hA : List.filter isRunAct
      [Action.checkDir (cfg.worktree_root ++ "/" ++ name), Action.checkBranch name,
       Action.mkdirParents cfg.worktree_root,
       Action.gitWorktreeAdd (cfg.worktree_root ++ "/" ++ name) name] = [] := rfl
  have hB : List.filter isRunAct
      (if cfg.copy_files.isEmpty then []
       else copy_files env.toGitEnv root (cfg.worktree_root ++ "/" ++ name) cfg.copy_files)
      = [] := by
    split
    · rfl
    · exact copy_files_filter_runAct _ _ _ _
  have hC : List.filter isRunAct
      (if cfg.post_commands.isEmpty then []
       else run_commands env.toGitEnv cfg.post_commands) =
      cfg.post_commands.map fun c => Action.runCmd c.run c.shell := by
    split
    · rename_i hpc
      rw [List.isEmpty_iff.mp hpc]
      rfl
    · exact run_commands_filter _ _
  rw [h2, List.filter_append, List.filter_append, hA, hB, hC]
  simp

def envPostCommands : CliEnv :=
  { pathExists := fun p => p == "/home/akx/.config/vaihde/repo.toml"
    branchExists := fun _ => false
    gitAddOk := true
    copyOk := fun _ => true
    exitCode := fun r => if r == "false-cmd" then 1 else 0
    home := "/home/akx"
    gitRoot := some "/repo"
    configData := ⟨some "/w", none, some [⟨some "false-cmd", none⟩, ⟨some "echo ok", some true⟩]⟩
    resolve := id }

/-- C4 witness: two post commands, the first exiting non-zero; both are
still invoked in order and `new` exits 0. -/
theorem cmd_new_runs_all_post_commands_witness :
    (cmd_new envPostCommands "feat").1 = 0 ∧
    (cmd_new envPostCommands "feat").2.filter isRunAct =
      [Action.runCmd "false-cmd" false, Action.runCmd "echo ok" true] ∧
    envPostCommands.exitCode "false-cmd" = 1 := by
  have h := cmd_new_runs_all_post_commands envPostCommands "feat" "/repo"
    "/home/akx/.config/vaihde/repo.toml"
    ⟨"/w", [], [⟨"false-cmd", false⟩, ⟨"echo ok", true⟩]⟩
    rfl (by decide) rfl rfl rfl rfl
  exact ⟨h.1, by rw [h.2]; rfl, by decide⟩

end Vaihde
